import Mathlib

/-!
Verification of the `atomic-gen` CLI scaffolding tool (latest revision of the
source: the version with exclusion patterns, metadata entries and the
`components:` wrapper key).  The pipeline under study is

  `loadConfigFromFile` (config parsing)  →  plan loop in `GenerateCommand.execute`
  →  confirmation prompt  →  `ComponentFileGenerator.generate` (materialization).

The embedding below is a shallow translation of that source.  Library
boundaries, exactly as the spec declares them: YAML deserialization is
represented by an already-parsed `Yaml` document tree whose mappings are
insertion-ordered association lists (keys are taken as ordinary, non
integer-like strings, so JavaScript object enumeration order is document
order); glob matching (`minimatch`) is an abstract boolean parameter
`matcher relativePath pattern`; Mustache rendering is an abstract total
function `render template component`.  Filesystem effects are reified as an
event trace (`Event`), with the existing-file predicate supplied as an
oracle for the state at the start of the run and threaded through the
creations the run itself performs.
-/

namespace AtomicGen

/-! ## POSIX path helpers (`path.normalize`, `path.relative`)

The program runs `path.normalize` and `path.relative` (Node, POSIX rules) on
candidate paths before exclusion matching.  Both inputs are plain relative
paths built by the program itself, so resolution against the current working
directory cancels; the functions below implement the segment algebra:
duplicate-separator and `.` removal, `..` resolution, and relative-path
computation by dropping the shared leading segments. -/

/-- Split a character list at `'/'` separators (the behavior of
`String.splitOn "/"`, reimplemented structurally). -/
def splitSlashAux : List Char → List Char → List String
  | [], cur => [⟨cur.reverse⟩]
  | c :: rest, cur =>
      if c = '/' then ⟨cur.reverse⟩ :: splitSlashAux rest []
      else splitSlashAux rest (c :: cur)

/-- `p` split at `/`. -/
def splitSlash (p : String) : List String :=
  splitSlashAux p.data []

/-- Join segments with `/` (the behavior of `String.intercalate "/"`). -/
def joinSlash : List String → String
  | [] => ""
  | [s] => s
  | s :: rest => s ++ "/" ++ joinSlash rest

/-- The path begins with a slash (is absolute). -/
def startsSlash (p : String) : Bool :=
  match p.data with
  | c :: _ => c = '/'
  | [] => false

/-- The path ends with a slash. -/
def endsSlash (p : String) : Bool :=
  match p.data.getLast? with
  | some c => c = '/'
  | none => false

/-- One fold step of POSIX `..` resolution over path segments.  For an
absolute path a `..` above the root is dropped; for a relative path it is
kept when there is nothing left to pop. -/
def dotsStep (abs : Bool) (acc : List String) (seg : String) : List String :=
  if seg = ".." then
    if abs then acc.dropLast
    else if acc ≠ [] ∧ acc.getLast? ≠ some ".." then acc.dropLast
    else acc ++ [".."]
  else acc ++ [seg]

/-- Clean segments of a path: split on `/`, drop empty segments and `.`,
resolve `..`. -/
def cleanSegs (abs : Bool) (p : String) : List String :=
  ((splitSlash p).filter (fun seg => seg ≠ "" && seg ≠ ".")).foldl (dotsStep abs) []

/-- Node `path.normalize` (POSIX): collapse duplicate separators, resolve
`.` and `..`, keep one trailing slash.  Only the relative-path/no-trailing
slash cases are exercised by the program (its candidate file paths). -/
def posixNormalize (p : String) : String :=
  let abs := startsSlash p
  let segs := cleanSegs abs p
  let body := joinSlash segs
  let trail := endsSlash p
  if abs then
    if segs = [] then "/" else "/" ++ body ++ (if trail then "/" else "")
  else
    if segs = [] then "." else body ++ (if trail then "/" else "")

/-- Drop the longest shared leading run of two segment lists, returning the
two remainders. -/
def dropSharedLead : List String → List String → List String × List String
  | a :: as, b :: bs => if a = b then dropSharedLead as bs else (a :: as, b :: bs)
  | as, bs => (as, bs)

/-- Node `path.relative (src, dst)` (POSIX) for two paths that are relative
to the same working directory (the only way the program calls it): resolve
both segment-wise, drop the shared lead, then climb with `..` and descend
into the remainder. -/
def posixRelative (src dst : String) : String :=
  let pair := dropSharedLead (cleanSegs true src) (cleanSegs true dst)
  joinSlash (List.replicate pair.1.length ".." ++ pair.2)

/-! ## JavaScript string trimming -/

/-- Whitespace for JavaScript `String.prototype.trim` (the ASCII portion;
the templates and rendered output contain no exotic Unicode spaces). -/
def isJsWs (c : Char) : Bool :=
  c = ' ' || c = '\n' || c = '\t' || c = '\x0d' || c = '\x0b' || c = '\x0c'

/-- `trim` on a character list: drop whitespace from both ends. -/
def jsTrimList (l : List Char) : List Char :=
  ((l.dropWhile isJsWs).reverse.dropWhile isJsWs).reverse

/-- JavaScript `s.trim()`. -/
def jsTrim (s : String) : String :=
  ⟨jsTrimList s.data⟩

/-- Length of the run of `'\n'` characters ending a string: `1` means the
string has exactly one trailing newline. -/
def trailingNewlineLen (s : String) : Nat :=
  (s.data.reverse.takeWhile (fun c => c = '\n')).length

/-! ## The parsed YAML document -/

/-- A parsed YAML document as the `yaml` library hands it to the program:
scalars, sequences, and insertion-ordered mappings. -/
inductive Yaml where
  | nullv : Yaml
  | boolv (b : Bool) : Yaml
  | numv (n : Int) : Yaml
  | strv (s : String) : Yaml
  | seqv (items : List Yaml) : Yaml
  | mapv (entries : List (String × Yaml)) : Yaml
deriving Repr

/-- JavaScript property lookup on an object built from an ordered list of
key/value pairs: a later binding for the same key overwrites an earlier
one. -/
def jsLookup (es : List (String × Yaml)) (key : String) : Option Yaml :=
  es.foldl (fun acc kv => if kv.1 = key then some kv.2 else acc) none

/-- How `loadConfigFromFile` can fail.  `notFound` is the `handleError`
path (one formatted message on stderr, exit code 1); `typeError` models an
unhandled JavaScript `TypeError` escaping `main` (a crash with a stack
trace, not a formatted single-line error). -/
inductive LoadError where
  | notFound : LoadError
  | typeError : LoadError
deriving Repr, DecidableEq

/-- JavaScript `Object.entries`, as the program applies it to values from
the parsed document: mappings yield their ordered pairs, arrays and strings
yield index-keyed entries, other primitives yield nothing, and `null`
raises a `TypeError`. -/
def entriesOfYaml : Yaml → Except LoadError (List (String × Yaml))
  | .nullv => .error .typeError
  | .mapv es => .ok es
  | .seqv items => .ok ((items.enum).map (fun p => (toString p.1, p.2)))
  | .strv s => .ok ((s.data.enum).map (fun p => (toString p.1, Yaml.strv (String.singleton p.2))))
  | .numv _ => .ok []
  | .boolv _ => .ok []

/-- JavaScript `Map.prototype.set` on an insertion-ordered association
list: an existing key keeps its position and gets the new value, a new key
is appended. -/
def mapSet (m : List (String × Yaml)) (k : String) (v : Yaml) : List (String × Yaml) :=
  if m.any (fun kv => kv.1 = k) then
    m.map (fun kv => if kv.1 = k then (k, v) else kv)
  else m ++ [(k, v)]

/-- One iteration of `rawMetadataListToMap` from the source:
`Object.entries` one metadata object and `Map.set` every pair (so a
repeated key keeps the last value). -/
def metaStep (mp : List (String × Yaml)) (m : Yaml) :
    Except LoadError (List (String × Yaml)) := do
  let es ← entriesOfYaml m
  pure (es.foldl (fun acc kv => mapSet acc kv.1 kv.2) mp)

/-- `rawMetadataListToMap` from the source: iterate a sequence of metadata
objects with `metaStep`.  Calling it on a non-array value crashes in
JavaScript (`forEach` is missing), modelled as `typeError`. -/
def rawMetadataListToMap (y : Yaml) : Except LoadError (List (String × Yaml)) :=
  match y with
  | .seqv ms => ms.foldlM metaStep []
  | _ => .error .typeError

/-! ## Target descriptors (`Component`) -/

/-- The `Component` class of the source: one generation target.  The
derived paths are the exact string concatenations of the constructor
(note the doubled slash: `componentDir` ends in `/` and another `/` is
inserted before the file name). -/
structure Component where
  baseDir : String
  categoryName : String
  componentName : String
  meta : List (String × Yaml)
deriving Repr

/-- `this.componentDir = baseDir/categoryName/componentName/`. -/
def Component.componentDir (c : Component) : String :=
  c.baseDir ++ "/" ++ c.categoryName ++ "/" ++ c.componentName ++ "/"

/-- `this.componentPath = componentDir + "/" + componentName + ".tsx"`. -/
def Component.componentPath (c : Component) : String :=
  c.componentDir ++ "/" ++ c.componentName ++ ".tsx"

/-- `this.storyPath = componentDir + "/" + componentName + ".stories.tsx"`. -/
def Component.storyPath (c : Component) : String :=
  c.componentDir ++ "/" ++ c.componentName ++ ".stories.tsx"

/-- The `Config` interface: the ordered target list plus the optional
exclusion pattern list.  Exclusion lists other than a sequence (whose
non-string items JavaScript would push into `minimatch`) are outside the
modelled scope of the glob-library boundary and are mapped to the
no-exclusion behavior. -/
structure Config where
  components : List Component
  excludes : Option (List String)
deriving Repr

/-- Extraction of `yaml.excludes` from the document (see `Config`). -/
def yamlExcludes (doc : Yaml) : Option (List String) :=
  match doc with
  | .mapv es =>
      match jsLookup es "excludes" with
      | some (.seqv l) =>
          some (l.filterMap (fun y => match y with | .strv s => some s | _ => none))
      | _ => none
  | _ => none

/-- One iteration of the `Object.entries(val).forEach` walk inside
`loadConfigFromFile`: convert the metadata list of one name and push the
target. -/
def withMetaStep (baseDir categoryName : String) (a : List Component)
    (kv : String × Yaml) : Except LoadError (List Component) := do
  let mm ← rawMetadataListToMap kv.2
  pure (a ++ [⟨baseDir, categoryName, kv.1, mm⟩])

/-- Processing of one entry of a category list, from `loadConfigFromFile`:
a string pushes a bare target; any object (`typeof val === 'object'`, which
in JavaScript includes arrays and `null`) is walked with `Object.entries`,
each key becoming a target whose metadata list is converted; other scalars
match neither `if` and fall through silently. -/
def processEntry (baseDir categoryName : String) (acc : List Component) :
    Yaml → Except LoadError (List Component)
  | .strv s => .ok (acc ++ [⟨baseDir, categoryName, s, []⟩])
  | .nullv => .error .typeError
  | .mapv pairs => pairs.foldlM (withMetaStep baseDir categoryName) acc
  | .seqv items =>
      (items.enum).foldlM
        (fun a p => withMetaStep baseDir categoryName a (toString p.1, p.2)) acc
  | _ => .ok acc

/-- One iteration of the category walk of `loadConfigFromFile`: the
category's value must be an array (otherwise `values.forEach` crashes),
and every entry of it is processed in order. -/
def categoryStep (baseDir : String) (acc : List Component) (cat : String × Yaml) :
    Except LoadError (List Component) :=
  match cat.2 with
  | .seqv vals => vals.foldlM (processEntry baseDir cat.1) acc
  | _ => .error .typeError

/-- `loadConfigFromFile` of the source.  `found` is the `fs.existsSync`
answer for the config path; `doc` is the parsed document.  Reading
`.components` of `null` and `Object.entries` of a missing `components`
property crash with a `TypeError` in JavaScript. -/
def loadConfigFromFile (found : Bool) (doc : Yaml) (baseDir : String) :
    Except LoadError Config := do
  if found = false then throw .notFound
  let componentsProp : Option Yaml ←
    match doc with
    | .nullv => throw .typeError
    | .mapv es => pure (jsLookup es "components")
    | _ => pure none
  match componentsProp with
  | none => throw .typeError
  | some cv =>
      let es ← entriesOfYaml cv
      let components ← es.foldlM (categoryStep baseDir) []
      pure ⟨components, yamlExcludes doc⟩

/-! ## The plan loop of `GenerateCommand.execute` -/

/-- The four per-candidate-path outcomes of the plan loop, named as the
console lines the loop prints (`create:`, `overwrite:`, `skip:`,
`excluded:`). -/
inductive Disposition where
  | create : Disposition
  | overwrite : Disposition
  | skip : Disposition
  | excluded : Disposition
deriving Repr, DecidableEq

/-- One row of the computed plan: the raw candidate path, its normalized
form, its form relative to the base directory, and the disposition. -/
structure PlanEntry where
  rawPath : String
  normalizedPath : String
  relativePath : String
  disp : Disposition
deriving Repr, DecidableEq

/-- `config.excludes && config.excludes.some((pattern) =>
minimatch(relativePath, pattern))`: an absent exclusion list is falsy and
short-circuits to no exclusion; otherwise some pattern must match.
`matcher` is the `minimatch` library boundary. -/
def excludeHit (matcher : String → String → Bool) (excludes : Option (List String))
    (rel : String) : Bool :=
  match excludes with
  | none => false
  | some pats => pats.any (fun pat => matcher rel pat)

/-- The body of `paths.forEach((p) => ...)` in `GenerateCommand.execute`:
normalize the path, take it relative to `baseDir`, test the exclusion
patterns first, and only otherwise consult the existing-file predicate
`exists0` together with the `--force` flag. -/
def planStep (matcher : String → String → Bool) (excludes : Option (List String))
    (exists0 : String → Bool) (isForce : Bool) (baseDir p : String) : PlanEntry :=
  let np := posixNormalize p
  let rel := posixRelative baseDir np
  if excludeHit matcher excludes rel then ⟨p, np, rel, .excluded⟩
  else if exists0 np then
    if isForce then ⟨p, np, rel, .overwrite⟩ else ⟨p, np, rel, .skip⟩
  else ⟨p, np, rel, .create⟩

/-- Whether the plan loop pushes the entry's component onto
`newComponents` (it does so exactly in the `create:` and `overwrite:`
branches). -/
def PlanEntry.pushed (e : PlanEntry) : Bool :=
  match e.disp with
  | .create => true
  | .overwrite => true
  | _ => false

/-- The push performed for one candidate path: record the entry, and push
the component when the path qualifies. -/
def planPathStep (matcher : String → String → Bool) (excludes : Option (List String))
    (exists0 : String → Bool) (isForce : Bool) (baseDir : String) (c : Component)
    (acc2 : List PlanEntry × List Component) (p : String) :
    List PlanEntry × List Component :=
  let e := planStep matcher excludes exists0 isForce baseDir p
  (acc2.1 ++ [e], acc2.2 ++ (if e.pushed then [c] else []))

/-- The plan-loop body for one component: its `componentPath` then its
`storyPath`. -/
def planCompStep (matcher : String → String → Bool) (excludes : Option (List String))
    (exists0 : String → Bool) (isForce : Bool) (baseDir : String)
    (acc : List PlanEntry × List Component) (c : Component) :
    List PlanEntry × List Component :=
  [c.componentPath, c.storyPath].foldl
    (planPathStep matcher excludes exists0 isForce baseDir c) acc

/-- The two nested `forEach` loops of `GenerateCommand.execute` that build
the plan: for every component, in order, its `componentPath` then its
`storyPath` are examined; the entry is recorded and the component is pushed
once per qualifying path. -/
def planPhase (matcher : String → String → Bool) (excludes : Option (List String))
    (exists0 : String → Bool) (isForce : Bool) (baseDir : String)
    (components : List Component) : List PlanEntry × List Component :=
  components.foldl (planCompStep matcher excludes exists0 isForce baseDir) ([], [])

/-! ## The run trace -/

/-- Observable actions of one `generate` run: console lines, the
confirmation prompt, directory creation and file writes.  The last two are
the only filesystem mutations the program performs. -/
inductive Event where
  | logLine (s : String) : Event
  | prompt (q : String) : Event
  | mkdir (dir : String) : Event
  | fileWrite (p : String) (content : String) : Event
deriving Repr, DecidableEq

/-- The console line the plan loop prints for an entry. -/
def logOfEntry (e : PlanEntry) : Event :=
  match e.disp with
  | .excluded => .logLine ("excluded: " ++ e.normalizedPath)
  | .skip => .logLine ("skip: " ++ e.normalizedPath)
  | .overwrite => .logLine ("overwrite: " ++ e.normalizedPath)
  | .create => .logLine ("create: " ++ e.normalizedPath)

/-- `Event.mkdir` or `Event.fileWrite`: the event touches the
filesystem. -/
def Event.isMutation : Event → Bool
  | .mkdir _ => true
  | .fileWrite _ _ => true
  | _ => false

/-- The event is the confirmation prompt. -/
def Event.isPrompt : Event → Bool
  | .prompt _ => true
  | _ => false

/-- The event is a plain console line. -/
def Event.isLogLine : Event → Bool
  | .logLine _ => true
  | _ => false

/-- `createFile` of `ComponentFileGenerator`: the Mustache output (`render`
is the library boundary, a total function, so the `content === undefined`
guard of the source is dead code) is trimmed and a single newline appended
before the write. -/
def renderedContent (render : String → Component → String) (template : String)
    (c : Component) : String :=
  jsTrim (render template c) ++ "\n"

/-- The materialization loop: `newComponents.forEach((component) =>
fileGenerator.generate(component))`.  `generate` creates the component
directory when it does not exist yet and writes both files,
unconditionally.  `existsFs` is the filesystem at the start of the run and
`made0` the paths the run has created before this loop (the base
directory, when it was missing); paths created by earlier iterations are
threaded through so the directory existence check sees them. -/
def materializeStep (render : String → Component → String)
    (componentTemplate storyTemplate : String) (existsFs : String → Bool)
    (acc : List Event × List String) (c : Component) : List Event × List String :=
  let dirThere := existsFs c.componentDir || acc.2.contains c.componentDir
  (acc.1 ++ (if dirThere then [] else [Event.mkdir c.componentDir])
    ++ [Event.fileWrite c.componentPath (renderedContent render componentTemplate c),
        Event.fileWrite c.storyPath (renderedContent render storyTemplate c)],
   acc.2 ++ (if dirThere then [] else [c.componentDir])
    ++ [c.componentPath, c.storyPath])

/-- See `materializeStep`; the loop over `newComponents`. -/
def materialize (render : String → Component → String)
    (componentTemplate storyTemplate : String) (existsFs : String → Bool)
    (made0 : List String) (comps : List Component) : List Event :=
  (comps.foldl (materializeStep render componentTemplate storyTemplate existsFs)
    ([], made0)).1

/-- `GenerateCommand.execute` after the config has been loaded, as an event
trace.  In source order: the plan loop with its console lines; the
nothing-to-do short circuit when no component was pushed; the confirmation
prompt and the cancel path; creation of the base directory when missing;
the materialization loop; the final success line.  `answer` is the
`askYesNo` boundary result. -/
def execute (matcher : String → String → Bool) (render : String → Component → String)
    (componentTemplate storyTemplate : String) (cfg : Config)
    (existsFs : String → Bool) (isForce : Bool) (baseDir : String)
    (answer : Bool) : List Event :=
  let pr := planPhase matcher cfg.excludes existsFs isForce baseDir cfg.components
  let logs := pr.1.map logOfEntry
  if pr.2.length = 0 then
    logs ++ [Event.logLine "No files to create. Exiting the process."]
  else
    logs
      ++ [Event.prompt ("This action will create " ++ toString pr.2.length
            ++ " new files. Do you want to proceed?")]
      ++ (if answer = false then [Event.logLine "File creation canceled."]
          else
            (if existsFs baseDir then [] else [Event.mkdir baseDir])
              ++ materialize render componentTemplate storyTemplate existsFs
                  (if existsFs baseDir then [] else [baseDir]) pr.2
              ++ [Event.logLine "All files were created successfully. Exiting the process."])

/-- The `(path, content)` pairs of the write events of a trace, in
order. -/
def writesOf (events : List Event) : List (String × String) :=
  events.filterMap (fun e =>
    match e with
    | .fileWrite p content => some (p, content)
    | _ => none)

/-- The paths written by a trace, in order. -/
def writePaths (events : List Event) : List String :=
  (writesOf events).map (fun pc => pc.1)

/-- Content of the file at (normalized) path `p` after the trace ran:
the last write whose normalized target is `p`, else the initial content
oracle `content0`. -/
def finalContent (content0 : String → Option String) (events : List Event)
    (p : String) : Option String :=
  events.foldl
    (fun acc e =>
      match e with
      | .fileWrite q content => if posixNormalize q = p then some content else acc
      | _ => acc)
    (content0 p)

/-! ## Claim-side (spec-worded) definitions -/

/-- How many of the two candidate paths of a target the plan loop pushes it
for (its number of `CREATE`/`OVERWRITE` paths). -/
def qualifyingCount (matcher : String → String → Bool) (excludes : Option (List String))
    (exists0 : String → Bool) (isForce : Bool) (baseDir : String) (c : Component) : Nat :=
  (([c.componentPath, c.storyPath]).filter
    (fun p => (planStep matcher excludes exists0 isForce baseDir p).pushed)).length

/-- The two plan rows of one target: component file first, story file
second. -/
def planEntriesOf (matcher : String → String → Bool) (excludes : Option (List String))
    (exists0 : String → Bool) (isForce : Bool) (baseDir : String) (c : Component) :
    List PlanEntry :=
  [planStep matcher excludes exists0 isForce baseDir c.componentPath,
   planStep matcher excludes exists0 isForce baseDir c.storyPath]

/-- A well-formed config entry as the spec describes the two variants —
a bare name, or names each carrying a metadata list — plus the scalar
shapes the spec claims are rejected. -/
inductive EntryW where
  | bare (name : String) : EntryW
  | withMeta (pairs : List (String × List (List (String × String)))) : EntryW
  | scalarNum (n : Int) : EntryW
  | scalarBool (b : Bool) : EntryW
deriving Repr

/-- Whether an entry is one of the two documented variants. -/
def EntryW.isNamed : EntryW → Bool
  | .bare _ => true
  | .withMeta _ => true
  | _ => false

/-- A metadata object rendered back into the document tree. -/
def metaToYaml (m : List (String × String)) : Yaml :=
  .mapv (m.map (fun kv => (kv.1, .strv kv.2)))

/-- An entry rendered back into the document tree. -/
def entryToYaml : EntryW → Yaml
  | .bare n => .strv n
  | .withMeta pairs =>
      .mapv (pairs.map (fun pm => (pm.1, .seqv (pm.2.map metaToYaml))))
  | .scalarNum n => .numv n
  | .scalarBool b => .boolv b

/-- The full config document for a category/entry listing and an optional
exclusion list, in document order, under the latest revision's shape
(`components:` wrapper plus optional `excludes:`). -/
def docOf (cats : List (String × List EntryW)) (excl : Option (List String)) : Yaml :=
  .mapv ([("components",
            Yaml.mapv (cats.map (fun ce => (ce.1, Yaml.seqv (ce.2.map entryToYaml)))))]
    ++ (match excl with
        | some l => [("excludes", Yaml.seqv (l.map Yaml.strv))]
        | none => []))

/-- Last-write-wins accumulation of a metadata list, as the spec words
it. -/
def metaMapOf (ml : List (List (String × String))) : List (String × Yaml) :=
  ml.foldl (fun acc kvs => kvs.foldl (fun a kv => mapSet a kv.1 (Yaml.strv kv.2)) acc) []

/-- Spec-side enumeration of targets: the targets of one entry, in entry
order. -/
def targetsOfEntry (baseDir categoryName : String) : EntryW → List Component
  | .bare n => [⟨baseDir, categoryName, n, []⟩]
  | .withMeta pairs =>
      pairs.map (fun pm => ⟨baseDir, categoryName, pm.1, metaMapOf pm.2⟩)
  | .scalarNum _ => []
  | .scalarBool _ => []

/-- Spec-side enumeration of all targets of a document: categories in
document order, entries in document order within each category. -/
def orderedTargets (baseDir : String) (cats : List (String × List EntryW)) :
    List Component :=
  cats.flatMap (fun ce => ce.2.flatMap (targetsOfEntry baseDir ce.1))

/-! ## General helper lemmas -/

theorem takeWhile_of_all {α : Type} (p : α → Bool) :
    ∀ xs : List α, (∀ x ∈ xs, p x = true) → xs.takeWhile p = xs := by
  intro xs
  induction xs with
  | nil => intro _; rfl
  | cons a t ih =>
      intro h
      have ha := h a (List.mem_cons_self a t)
      simp [List.takeWhile_cons, ha, ih (fun x hx => h x (List.mem_cons_of_mem a hx))]

theorem takeWhile_append_stop {α : Type} (p : α → Bool) :
    ∀ (xs : List α) (y : α) (ys : List α), (∀ x ∈ xs, p x = true) → p y = false →
      (xs ++ y :: ys).takeWhile p = xs := by
  intro xs
  induction xs with
  | nil => intro y ys _ hy; simp [List.takeWhile_cons, hy]
  | cons a t ih =>
      intro y ys h hy
      have ha := h a (List.mem_cons_self a t)
      simp [List.takeWhile_cons, ha,
        ih y ys (fun x hx => h x (List.mem_cons_of_mem a hx)) hy]

/-! ## Lemmas about the trace combinators -/

theorem writesOf_append (a b : List Event) :
    writesOf (a ++ b) = writesOf a ++ writesOf b := by
  simp [writesOf, List.filterMap_append]

theorem logOfEntry_isLogLine (pe : PlanEntry) : (logOfEntry pe).isLogLine = true := by
  cases h : pe.disp <;> simp [logOfEntry, h, Event.isLogLine]

theorem logOfEntry_not_mutation (pe : PlanEntry) :
    (logOfEntry pe).isMutation = false := by
  cases h : pe.disp <;> simp [logOfEntry, h, Event.isMutation]

theorem logOfEntry_not_prompt (pe : PlanEntry) : (logOfEntry pe).isPrompt = false := by
  cases h : pe.disp <;> simp [logOfEntry, h, Event.isPrompt]

theorem map_log_all (p : Event → Bool) (h : ∀ pe : PlanEntry, p (logOfEntry pe) = true) :
    ∀ l : List PlanEntry, (l.map logOfEntry).all p = true := by
  intro l
  induction l with
  | nil => rfl
  | cons a t ih => simp [List.all_cons, h a, ih]

theorem writesOf_map_log : ∀ l : List PlanEntry, writesOf (l.map logOfEntry) = [] := by
  intro l
  induction l with
  | nil => rfl
  | cons a t ih => cases h : a.disp <;> simp [writesOf, logOfEntry, h] <;> simpa [writesOf] using ih

/-! ## The plan loop as an ordered enumeration -/

theorem planCompStep_eq (matcher : String → String → Bool)
    (excludes : Option (List String)) (exists0 : String → Bool) (isForce : Bool)
    (baseDir : String) (acc : List PlanEntry × List Component) (c : Component) :
    planCompStep matcher excludes exists0 isForce baseDir acc c
      = (acc.1 ++ planEntriesOf matcher excludes exists0 isForce baseDir c,
         acc.2 ++ List.replicate (qualifyingCount matcher excludes exists0 isForce baseDir c) c) := by
  cases h1 : (planStep matcher excludes exists0 isForce baseDir c.componentPath).pushed
    <;> cases h2 : (planStep matcher excludes exists0 isForce baseDir c.storyPath).pushed
    <;> simp [planCompStep, planPathStep, planEntriesOf, qualifyingCount, h1, h2,
          List.filter, List.replicate]

theorem planPhase_go (matcher : String → String → Bool)
    (excludes : Option (List String)) (exists0 : String → Bool) (isForce : Bool)
    (baseDir : String) :
    ∀ (comps : List Component) (acc : List PlanEntry × List Component),
      comps.foldl (planCompStep matcher excludes exists0 isForce baseDir) acc
        = (acc.1 ++ comps.flatMap (planEntriesOf matcher excludes exists0 isForce baseDir),
           acc.2 ++ comps.flatMap (fun c =>
             List.replicate (qualifyingCount matcher excludes exists0 isForce baseDir c) c)) := by
  intro comps
  induction comps with
  | nil => intro acc; simp
  | cons c cs ih =>
      intro acc
      rw [List.foldl_cons, planCompStep_eq, ih]
      simp

theorem planPhase_eq (matcher : String → String → Bool)
    (excludes : Option (List String)) (exists0 : String → Bool) (isForce : Bool)
    (baseDir : String) (comps : List Component) :
    planPhase matcher excludes exists0 isForce baseDir comps
      = (comps.flatMap (planEntriesOf matcher excludes exists0 isForce baseDir),
         comps.flatMap (fun c =>
           List.replicate (qualifyingCount matcher excludes exists0 isForce baseDir c) c)) := by
  simpa [planPhase] using
    planPhase_go matcher excludes exists0 isForce baseDir comps ([], [])

/-! ## The writes of the materialization loop -/

theorem writesOf_materialize_go (render : String → Component → String)
    (ct st : String) (existsFs : String → Bool) :
    ∀ (comps : List Component) (evs : List Event) (made : List String),
      writesOf ((comps.foldl (materializeStep render ct st existsFs) (evs, made)).1)
        = writesOf evs ++ comps.flatMap (fun c =>
            [(c.componentPath, renderedContent render ct c),
             (c.storyPath, renderedContent render st c)]) := by
  intro comps
  induction comps with
  | nil => intro evs made; simp
  | cons c cs ih =>
      intro evs made
      rw [List.foldl_cons]
      by_cases hd : (existsFs c.componentDir || made.contains c.componentDir) = true
      · simp only [materializeStep, hd]
        rw [ih]
        simp [writesOf_append, writesOf]
      · simp only [materializeStep, Bool.not_eq_true] at hd ⊢
        simp only [hd]
        rw [ih]
        simp [writesOf_append, writesOf]

theorem writesOf_materialize (render : String → Component → String)
    (ct st : String) (existsFs : String → Bool) (made0 : List String)
    (comps : List Component) :
    writesOf (materialize render ct st existsFs made0 comps)
      = comps.flatMap (fun c =>
          [(c.componentPath, renderedContent render ct c),
           (c.storyPath, renderedContent render st c)]) := by
  simpa [materialize] using
    writesOf_materialize_go render ct st existsFs comps [] made0

theorem writesOf_nil : writesOf [] = [] := rfl

theorem writesOf_log (s : String) : writesOf [Event.logLine s] = [] := rfl

theorem writesOf_cons_log (s : String) (l : List Event) :
    writesOf (Event.logLine s :: l) = writesOf l := rfl

theorem writesOf_cons_prompt (q : String) (l : List Event) :
    writesOf (Event.prompt q :: l) = writesOf l := rfl

theorem writesOf_cons_mkdir (d : String) (l : List Event) :
    writesOf (Event.mkdir d :: l) = writesOf l := rfl

theorem writePaths_append (a b : List Event) :
    writePaths (a ++ b) = writePaths a ++ writePaths b := by
  simp [writePaths, writesOf_append]

theorem writePaths_map_log (l : List PlanEntry) : writePaths (l.map logOfEntry) = [] := by
  simp [writePaths, writesOf_map_log]

theorem writePaths_nil : writePaths [] = [] := rfl

theorem writePaths_log (s : String) : writePaths [Event.logLine s] = [] := rfl

theorem writePaths_prompt (q : String) : writePaths [Event.prompt q] = [] := rfl

theorem writePaths_mkdir (d : String) : writePaths [Event.mkdir d] = [] := rfl

theorem writePaths_cons_log (s : String) (l : List Event) :
    writePaths (Event.logLine s :: l) = writePaths l := rfl

theorem writePaths_cons_prompt (q : String) (l : List Event) :
    writePaths (Event.prompt q :: l) = writePaths l := rfl

theorem writePaths_cons_mkdir (d : String) (l : List Event) :
    writePaths (Event.mkdir d :: l) = writePaths l := rfl

theorem planStep_normalizedPath (matcher : String → String → Bool)
    (excludes : Option (List String)) (exists0 : String → Bool) (isForce : Bool)
    (baseDir p : String) :
    (planStep matcher excludes exists0 isForce baseDir p).normalizedPath
      = posixNormalize p := by
  simp only [planStep]
  split
  · rfl
  · split
    · split <;> rfl
    · rfl

theorem planStep_relativePath (matcher : String → String → Bool)
    (excludes : Option (List String)) (exists0 : String → Bool) (isForce : Bool)
    (baseDir p : String) :
    (planStep matcher excludes exists0 isForce baseDir p).relativePath
      = posixRelative baseDir (posixNormalize p) := by
  simp only [planStep]
  split
  · rfl
  · split
    · split <;> rfl
    · rfl

theorem writePaths_materialize (render : String → Component → String)
    (ct st : String) (existsFs : String → Bool) (made0 : List String)
    (comps : List Component) :
    writePaths (materialize render ct st existsFs made0 comps)
      = comps.flatMap (fun c => [c.componentPath, c.storyPath]) := by
  simp [writePaths, writesOf_materialize, List.map_flatMap]

/-! ## Loading a well-formed document -/

theorem ok_bind {α β : Type} (x : α) (f : α → Except LoadError β) :
    (Except.ok x >>= f) = f x := rfl

theorem strv_filterMap (l : List String) :
    ((l.map Yaml.strv).filterMap
      (fun y => match y with | Yaml.strv s => some s | _ => none)) = l := by
  induction l with
  | nil => rfl
  | cons a t ih => simp [List.filterMap_cons, ih]

theorem metaStep_metaToYaml (mp : List (String × Yaml)) (m : List (String × String)) :
    metaStep mp (metaToYaml m)
      = Except.ok (m.foldl (fun a kv => mapSet a kv.1 (Yaml.strv kv.2)) mp) := by
  simp [metaStep, metaToYaml, entriesOfYaml, List.foldl_map]

theorem rawMeta_go (ml : List (List (String × String))) :
    ∀ mp : List (String × Yaml),
      (ml.map metaToYaml).foldlM metaStep mp
        = Except.ok (ml.foldl (fun acc kvs =>
            kvs.foldl (fun a kv => mapSet a kv.1 (Yaml.strv kv.2)) acc) mp) := by
  induction ml with
  | nil => intro mp; rfl
  | cons m rest ih =>
      intro mp
      rw [List.map_cons, List.foldlM_cons, metaStep_metaToYaml]
      simp only [List.foldl_cons]
      exact ih _

theorem rawMetadataListToMap_metaToYaml (ml : List (List (String × String))) :
    rawMetadataListToMap (Yaml.seqv (ml.map metaToYaml)) = Except.ok (metaMapOf ml) := by
  simp only [rawMetadataListToMap, metaMapOf]
  exact rawMeta_go ml []

theorem withMetaStep_ok (bd cat : String) (a : List Component) (n : String)
    (ml : List (List (String × String))) :
    withMetaStep bd cat a (n, Yaml.seqv (ml.map metaToYaml))
      = Except.ok (a ++ [⟨bd, cat, n, metaMapOf ml⟩]) := by
  simp [withMetaStep, rawMetadataListToMap_metaToYaml]

theorem withMeta_fold_ok (bd cat : String)
    (pairs : List (String × List (List (String × String)))) :
    ∀ a : List Component,
      ((pairs.map (fun pm => (pm.1, Yaml.seqv (pm.2.map metaToYaml)))).foldlM
          (withMetaStep bd cat) a)
        = Except.ok (a ++ pairs.map (fun pm =>
            (⟨bd, cat, pm.1, metaMapOf pm.2⟩ : Component))) := by
  induction pairs with
  | nil => intro a; simp; rfl
  | cons pm rest ih =>
      intro a
      rw [List.map_cons, List.foldlM_cons, withMetaStep_ok]
      simp only [ok_bind]
      rw [ih]
      simp

theorem processEntry_entryToYaml (bd cat : String) (acc : List Component) (e : EntryW) :
    processEntry bd cat acc (entryToYaml e)
      = Except.ok (acc ++ targetsOfEntry bd cat e) := by
  cases e with
  | bare n => rfl
  | withMeta pairs =>
      simp only [entryToYaml, processEntry, targetsOfEntry]
      exact withMeta_fold_ok bd cat pairs acc
  | scalarNum n => simp [entryToYaml, processEntry, targetsOfEntry]
  | scalarBool b => simp [entryToYaml, processEntry, targetsOfEntry]

theorem entries_fold_ok (bd cat : String) (es : List EntryW) :
    ∀ acc : List Component,
      (es.map entryToYaml).foldlM (processEntry bd cat) acc
        = Except.ok (acc ++ es.flatMap (targetsOfEntry bd cat)) := by
  induction es with
  | nil => intro acc; simp; rfl
  | cons e rest ih =>
      intro acc
      rw [List.map_cons, List.foldlM_cons, processEntry_entryToYaml]
      simp only [ok_bind]
      rw [ih]
      simp

theorem categories_fold_ok (bd : String) (cats : List (String × List EntryW)) :
    ∀ acc : List Component,
      ((cats.map (fun ce => (ce.1, Yaml.seqv (ce.2.map entryToYaml)))).foldlM
          (categoryStep bd) acc)
        = Except.ok (acc ++ orderedTargets bd cats) := by
  induction cats with
  | nil => intro acc; simp [orderedTargets]; rfl
  | cons ce rest ih =>
      intro acc
      rw [List.map_cons, List.foldlM_cons]
      simp only [categoryStep]
      rw [entries_fold_ok]
      simp only [ok_bind]
      rw [ih]
      simp [orderedTargets]

theorem loadConfig_docOf (bd : String) (cats : List (String × List EntryW))
    (excl : Option (List String)) :
    loadConfigFromFile true (docOf cats excl) bd
      = Except.ok ⟨orderedTargets bd cats, excl⟩ := by
  cases excl with
  | none =>
      have h0 : loadConfigFromFile true (docOf cats none) bd
          = ((cats.map (fun ce => (ce.1, Yaml.seqv (ce.2.map entryToYaml)))).foldlM
                (categoryStep bd) []
              >>= fun components =>
                pure ⟨components, yamlExcludes (docOf cats none)⟩) := rfl
      rw [h0, categories_fold_ok, ok_bind]
      have hx : yamlExcludes (docOf cats none) = none := rfl
      simp [hx]
      rfl
  | some l =>
      have h0 : loadConfigFromFile true (docOf cats (some l)) bd
          = ((cats.map (fun ce => (ce.1, Yaml.seqv (ce.2.map entryToYaml)))).foldlM
                (categoryStep bd) []
              >>= fun components =>
                pure ⟨components, yamlExcludes (docOf cats (some l))⟩) := rfl
      rw [h0, categories_fold_ok, ok_bind]
      have hx : yamlExcludes (docOf cats (some l))
          = some ((l.map Yaml.strv).filterMap
              (fun y => match y with | Yaml.strv s => some s | _ => none)) := rfl
      rw [hx, strv_filterMap]
      simp
      rfl

theorem targets_filter_named (bd cat : String) :
    ∀ es : List EntryW,
      (es.filter EntryW.isNamed).flatMap (targetsOfEntry bd cat)
        = es.flatMap (targetsOfEntry bd cat) := by
  intro es
  induction es with
  | nil => rfl
  | cons e rest ih =>
      cases e <;> simp [List.filter_cons, EntryW.isNamed, targetsOfEntry, ih]

theorem orderedTargets_filter (bd : String) (cats : List (String × List EntryW)) :
    orderedTargets bd (cats.map (fun ce => (ce.1, ce.2.filter EntryW.isNamed)))
      = orderedTargets bd cats := by
  induction cats with
  | nil => rfl
  | cons ce rest ih =>
      simp only [List.map_cons, orderedTargets, List.flatMap_cons] at ih ⊢
      rw [targets_filter_named, ih]

/-! ## Trimming facts -/

theorem string_data_append (s t : String) : (s ++ t).data = s.data ++ t.data := rfl

theorem takeWhile_nl_of_dropWhile_ws :
    ∀ l : List Char, ((l.dropWhile isJsWs).takeWhile (fun c => c = '\n')) = [] := by
  intro l
  induction l with
  | nil => rfl
  | cons c t ih =>
      by_cases h : isJsWs c = true
      · simp [List.dropWhile_cons, h, ih]
      · have hc : ¬(c = '\n') := by
          intro he
          subst he
          exact h (by decide)
        simp [List.dropWhile_cons, h, List.takeWhile_cons, hc]

theorem trailingNewlineLen_of_trimmed (s : String) :
    trailingNewlineLen (jsTrim s ++ "\n") = 1 := by
  have hdata : (jsTrim s ++ "\n").data = jsTrimList s.data ++ ['\n'] := rfl
  unfold trailingNewlineLen
  rw [hdata, List.reverse_append]
  have hrev : (jsTrimList s.data).reverse
      = ((s.data.dropWhile isJsWs).reverse).dropWhile isJsWs := by
    simp [jsTrimList]
  simp [List.takeWhile_cons, hrev, takeWhile_nl_of_dropWhile_ws]

/-! ## Claim theorems -/

/-- C4: if the user's answer to the confirmation prompt is not affirmative,
the run creates no directory and no file (first conjunct: a declined run's
trace holds no mutation event at all), and the base directory itself — like
every other mutation — is created strictly after a successful confirmation
(second conjunct: everything before the prompt in an accepted run's trace is
mutation-free). -/
theorem c4_declined_run_creates_nothing
    (matcher : String → String → Bool) (render : String → Component → String)
    (ct st : String) (cfg : Config) (existsFs : String → Bool) (isForce : Bool)
    (baseDir : String) :
    ((execute matcher render ct st cfg existsFs isForce baseDir false).all
        (fun e => !e.isMutation)) = true
    ∧ (((execute matcher render ct st cfg existsFs isForce baseDir true).takeWhile
        (fun e => !e.isPrompt)).all (fun e => !e.isMutation)) = true := by
  have hlogsMut : ∀ l : List PlanEntry,
      (l.map logOfEntry).all (fun e => !e.isMutation) = true :=
    map_log_all _ (fun pe => by simp [logOfEntry_not_mutation])
  have hlogsPrompt : ∀ l : List PlanEntry,
      ∀ x ∈ l.map logOfEntry, (fun e => !e.isPrompt) x = true := by
    intro l x hx
    obtain ⟨pe, _, rfl⟩ := List.mem_map.mp hx
    simp [logOfEntry_not_prompt]
  constructor
  · by_cases h :
      (planPhase matcher cfg.excludes existsFs isForce baseDir cfg.components).2.length = 0
    · simp [execute, h, List.all_append, Event.isMutation]
      intro a _
      exact logOfEntry_not_mutation a
    · simp [execute, h, List.all_append, Event.isMutation]
      intro a _
      exact logOfEntry_not_mutation a
  · by_cases h :
      (planPhase matcher cfg.excludes existsFs isForce baseDir cfg.components).2.length = 0
    · rw [execute]
      simp only [h, if_true]
      rw [takeWhile_of_all]
      · simp [List.all_append, Event.isMutation]
        intro a _
        exact logOfEntry_not_mutation a
      · intro x hx
        rcases List.mem_append.mp hx with hx1 | hx2
        · exact hlogsPrompt _ x hx1
        · simp only [List.mem_singleton] at hx2
          subst hx2
          simp [Event.isPrompt]
    · rw [execute]
      simp only [h, if_false, Bool.false_eq_true, List.append_assoc,
        List.singleton_append]
      rw [takeWhile_append_stop _ _ _ _ (hlogsPrompt _) (by simp [Event.isPrompt])]
      exact hlogsMut _

/-- C6: when no candidate path got disposition CREATE or OVERWRITE (the
materialization set is empty, which in the code is `newComponents.length
=== 0`), the whole run is console output only: no prompt event, no
directory creation, no write. -/
theorem c6_empty_plan_never_prompts
    (matcher : String → String → Bool) (render : String → Component → String)
    (ct st : String) (cfg : Config) (existsFs : String → Bool) (isForce : Bool)
    (baseDir : String) (answer : Bool) :
    (planPhase matcher cfg.excludes existsFs isForce baseDir cfg.components).2.length = 0 →
    ((execute matcher render ct st cfg existsFs isForce baseDir answer).all
      Event.isLogLine) = true := by
  intro h
  have hlogs : ∀ l : List PlanEntry, (l.map logOfEntry).all Event.isLogLine = true :=
    map_log_all _ logOfEntry_isLogLine
  simp [execute, h, List.all_append, hlogs, Event.isLogLine]

/-- Witness for C6: a run whose single target has both files already
present (force off) has an empty materialization set, and its trace is
console lines only. -/
theorem c6_empty_plan_never_prompts_witness :
    (planPhase (fun _ _ => false) none (fun _ => true) false "src/components"
        [⟨"src/components", "atoms", "Button", []⟩]).2.length = 0
    ∧ ((execute (fun _ _ => false) (fun t _ => t) "CT" "ST"
          ⟨[⟨"src/components", "atoms", "Button", []⟩], none⟩
          (fun _ => true) false "src/components" true).all Event.isLogLine) = true :=
  ⟨by decide,
   c6_empty_plan_never_prompts (fun _ _ => false) (fun t _ => t) "CT" "ST"
     ⟨[⟨"src/components", "atoms", "Button", []⟩], none⟩
     (fun _ => true) false "src/components" true (by decide)⟩

/-- C2: the write set is determined per target, not per candidate path.
First conjunct: the plan loop enqueues each target once per qualifying
path (`CREATE`/`OVERWRITE`).  Second conjunct: in a confirmed run the
written paths are exactly both candidate files of every enqueued target,
in queue order.  Third conjunct: whenever at least one of a target's two
paths qualifies, both of its files are written. -/
theorem c2_write_set_is_per_target
    (matcher : String → String → Bool) (render : String → Component → String)
    (ct st : String) (excludes : Option (List String)) (existsFs : String → Bool)
    (isForce : Bool) (baseDir : String) (comps : List Component) :
    (planPhase matcher excludes existsFs isForce baseDir comps).2
      = comps.flatMap (fun c =>
          List.replicate (qualifyingCount matcher excludes existsFs isForce baseDir c) c)
    ∧ writePaths (execute matcher render ct st ⟨comps, excludes⟩ existsFs isForce baseDir true)
      = (planPhase matcher excludes existsFs isForce baseDir comps).2.flatMap
          (fun c => [c.componentPath, c.storyPath])
    ∧ (∀ c ∈ comps,
        0 < qualifyingCount matcher excludes existsFs isForce baseDir c →
        c.componentPath
            ∈ writePaths (execute matcher render ct st ⟨comps, excludes⟩ existsFs isForce baseDir true)
          ∧ c.storyPath
            ∈ writePaths (execute matcher render ct st ⟨comps, excludes⟩ existsFs isForce baseDir true)) := by
  have hsnd : (planPhase matcher excludes existsFs isForce baseDir comps).2
      = comps.flatMap (fun c =>
          List.replicate (qualifyingCount matcher excludes existsFs isForce baseDir c) c) := by
    rw [planPhase_eq]
  have hwp : writePaths (execute matcher render ct st ⟨comps, excludes⟩ existsFs isForce baseDir true)
      = (planPhase matcher excludes existsFs isForce baseDir comps).2.flatMap
          (fun c => [c.componentPath, c.storyPath]) := by
    by_cases h : (planPhase matcher excludes existsFs isForce baseDir comps).2.length = 0
    · have h2 := List.length_eq_zero.mp h
      simp [execute, h, h2, writePaths_append, writePaths_map_log, writePaths_log]
    · by_cases hb : existsFs baseDir = true
      · simp [execute, h, hb, writePaths_append, writePaths_map_log, writePaths_log,
          writePaths_cons_prompt, writePaths_cons_mkdir, writePaths_cons_log,
          writePaths_materialize, writePaths_nil]
      · simp only [Bool.not_eq_true] at hb
        simp [execute, h, hb, writePaths_append, writePaths_map_log, writePaths_log,
          writePaths_cons_prompt, writePaths_cons_mkdir, writePaths_cons_log,
          writePaths_materialize, writePaths_nil]
  refine ⟨hsnd, hwp, ?_⟩
  intro c hc hq
  have hcmem : c ∈ (planPhase matcher excludes existsFs isForce baseDir comps).2 := by
    rw [hsnd]
    exact List.mem_flatMap.mpr
      ⟨c, hc, List.mem_replicate.mpr ⟨Nat.pos_iff_ne_zero.mp hq, rfl⟩⟩
  constructor
  · rw [hwp]
    exact List.mem_flatMap.mpr ⟨c, hcmem, by simp⟩
  · rw [hwp]
    exact List.mem_flatMap.mpr ⟨c, hcmem, by simp⟩

/-- Witness for C2: a target whose component file is pre-existing (force
off) still qualifies through its story file alone, and both of its files
are written by the confirmed run. -/
theorem c2_write_set_is_per_target_witness :
    (⟨"src/components", "atoms", "Button", []⟩ : Component) ∈
        [(⟨"src/components", "atoms", "Button", []⟩ : Component)]
    ∧ 0 < qualifyingCount (fun _ _ => false) none
        (fun p => p == "src/components/atoms/Button/Button.tsx") false "src/components"
        ⟨"src/components", "atoms", "Button", []⟩
    ∧ ((⟨"src/components", "atoms", "Button", []⟩ : Component).componentPath
          ∈ writePaths (execute (fun _ _ => false) (fun t _ => t) "CT" "ST"
              ⟨[⟨"src/components", "atoms", "Button", []⟩], none⟩
              (fun p => p == "src/components/atoms/Button/Button.tsx") false
              "src/components" true)
        ∧ (⟨"src/components", "atoms", "Button", []⟩ : Component).storyPath
          ∈ writePaths (execute (fun _ _ => false) (fun t _ => t) "CT" "ST"
              ⟨[⟨"src/components", "atoms", "Button", []⟩], none⟩
              (fun p => p == "src/components/atoms/Button/Button.tsx") false
              "src/components" true)) :=
  ⟨List.mem_singleton.mpr rfl, by decide,
   (c2_write_set_is_per_target (fun _ _ => false) (fun t _ => t) "CT" "ST" none
       (fun p => p == "src/components/atoms/Button/Button.tsx") false "src/components"
       [⟨"src/components", "atoms", "Button", []⟩]).2.2
     ⟨"src/components", "atoms", "Button", []⟩ (List.mem_singleton.mpr rfl) (by decide)⟩

/-- C5: the disposition of each candidate path is computed on the
normalized path taken relative to the base directory; an exclusion match
decides `EXCLUDED` without the existence predicate being consulted (the
disposition is the same under every existence predicate), and otherwise the
result is `CREATE` for a missing file, `OVERWRITE` for an existing file
with force, and `SKIP` for an existing file without force. -/
theorem c5_disposition_rule
    (matcher : String → String → Bool) (excludes : Option (List String))
    (exists0 exists1 : String → Bool) (isForce : Bool) (baseDir p : String) :
    (planStep matcher excludes exists0 isForce baseDir p).normalizedPath
        = posixNormalize p
    ∧ (planStep matcher excludes exists0 isForce baseDir p).relativePath
        = posixRelative baseDir (posixNormalize p)
    ∧ (excludeHit matcher excludes (posixRelative baseDir (posixNormalize p)) = true →
        (planStep matcher excludes exists0 isForce baseDir p).disp = Disposition.excluded
        ∧ (planStep matcher excludes exists1 isForce baseDir p).disp = Disposition.excluded)
    ∧ (excludeHit matcher excludes (posixRelative baseDir (posixNormalize p)) = false →
        exists0 (posixNormalize p) = false →
        (planStep matcher excludes exists0 isForce baseDir p).disp = Disposition.create)
    ∧ (excludeHit matcher excludes (posixRelative baseDir (posixNormalize p)) = false →
        exists0 (posixNormalize p) = true →
        (planStep matcher excludes exists0 isForce baseDir p).disp
          = (if isForce then Disposition.overwrite else Disposition.skip)) := by
  refine ⟨planStep_normalizedPath matcher excludes exists0 isForce baseDir p,
    planStep_relativePath matcher excludes exists0 isForce baseDir p, ?_, ?_, ?_⟩
  · intro h
    constructor <;> simp [planStep, h]
  · intro h he
    simp [planStep, h, he]
  · intro h he
    cases isForce <;> simp [planStep, h, he]

/-- Witness for C5: on a concrete excluded path the disposition is
`EXCLUDED` under two existence predicates that disagree on the path, and on
a concrete non-excluded pre-existing path without force it is `SKIP`. -/
theorem c5_disposition_rule_witness :
    ((planStep (fun _ pat => pat == "x") (some ["x"]) (fun _ => true) true "b" "b/c//d.tsx").disp
        = Disposition.excluded
      ∧ (planStep (fun _ pat => pat == "x") (some ["x"]) (fun _ => false) true "b" "b/c//d.tsx").disp
        = Disposition.excluded)
    ∧ (planStep (fun _ _ => false) none (fun _ => true) false "b" "b/c//d.tsx").disp
        = Disposition.skip :=
  ⟨(c5_disposition_rule (fun _ pat => pat == "x") (some ["x"]) (fun _ => true)
      (fun _ => false) true "b" "b/c//d.tsx").2.2.1 (by decide),
   by
    have h := (c5_disposition_rule (fun _ _ => false) none (fun _ => true)
      (fun _ => true) false "b" "b/c//d.tsx").2.2.2.2 (by decide) (by decide)
    simpa using h⟩

/-- C9: parsing a well-formed config document yields one target per entry,
ordered by category in document order and by entry in document order within
each category; the plan enumerates exactly two candidate rows per target,
the component file row before the story file row (`planEntriesOf`), and
this enumeration order is preserved into the plan output. -/
theorem c9_document_order
    (bd : String) (cats : List (String × List EntryW)) (excl : Option (List String))
    (matcher : String → String → Bool) (exists0 : String → Bool) (isForce : Bool) :
    loadConfigFromFile true (docOf cats excl) bd
      = Except.ok ⟨orderedTargets bd cats, excl⟩
    ∧ (planPhase matcher excl exists0 isForce bd (orderedTargets bd cats)).1
        = (orderedTargets bd cats).flatMap (planEntriesOf matcher excl exists0 isForce bd) := by
  refine ⟨loadConfig_docOf bd cats excl, ?_⟩
  simp [planPhase_eq]

/-- C7 counterexample: a config entry that is neither a bare name string
nor a name-with-metadata mapping (here the number 42) does not make parsing
fail at all — the load succeeds and silently yields no target, instead of
the claimed `ConfigFormatError`. -/
theorem c7_counterexample :
    loadConfigFromFile true (docOf [("atoms", [EntryW.scalarNum 42])] none) "src/components"
      = Except.ok ⟨[], none⟩ := rfl

/-- C7 amended: no entry shape is rejected with a `ConfigFormatError`
naming category and entry — no such error path exists.  First conjunct: a
non-string scalar entry (number or boolean) is silently ignored, so
deleting every such entry from the document does not change the result of
parsing at all.  Second conjunct: a `null` entry instead crashes the load
with an unhandled `TypeError` (`typeof null === 'object'`, then
`Object.entries(null)` throws).  Third conjunct: a sequence entry is not
ignored either — `Object.entries` of the array gives index-keyed pairs, so
it produces an index-named target (here `"0"`). -/
theorem c7_entries_not_rejected
    (cats : List (String × List EntryW)) (excl : Option (List String))
    (bd cat : String) (acc : List Component) :
    loadConfigFromFile true (docOf cats excl) bd
      = loadConfigFromFile true
          (docOf (cats.map (fun ce => (ce.1, ce.2.filter EntryW.isNamed))) excl) bd
    ∧ processEntry bd cat acc Yaml.nullv = Except.error LoadError.typeError
    ∧ processEntry bd cat [] (Yaml.seqv [Yaml.seqv []])
        = Except.ok [⟨bd, cat, "0", []⟩] := by
  refine ⟨?_, rfl, rfl⟩
  rw [loadConfig_docOf, loadConfig_docOf, orderedTargets_filter]

/-- C8: the missing-config-source case is the `handleError` path (one
formatted message, non-zero exit), but a top-level document that is not a
mapping with a `components` key — a scalar, a sequence, or `null` — makes
the load crash with an unhandled `TypeError` (from `Object.entries
(undefined)` or from reading a property of `null`) rather than fail with a
formatted `ConfigFormatError` message. -/
theorem c8_top_level_shape_errors :
    loadConfigFromFile false (Yaml.numv 42) "src/components"
        = Except.error LoadError.notFound
    ∧ loadConfigFromFile true (Yaml.numv 42) "src/components"
        = Except.error LoadError.typeError
    ∧ loadConfigFromFile true (Yaml.seqv [Yaml.strv "atoms"]) "src/components"
        = Except.error LoadError.typeError
    ∧ loadConfigFromFile true Yaml.nullv "src/components"
        = Except.error LoadError.typeError :=
  ⟨rfl, rfl, rfl, rfl⟩

/-- The write events of a whole run: none at all, or exactly the two
rendered files of every enqueued target. -/
theorem writesOf_execute_cases
    (matcher : String → String → Bool) (render : String → Component → String)
    (ct st : String) (cfg : Config) (existsFs : String → Bool) (isForce : Bool)
    (baseDir : String) (answer : Bool) :
    writesOf (execute matcher render ct st cfg existsFs isForce baseDir answer) = []
    ∨ writesOf (execute matcher render ct st cfg existsFs isForce baseDir answer)
        = (planPhase matcher cfg.excludes existsFs isForce baseDir cfg.components).2.flatMap
            (fun c => [(c.componentPath, renderedContent render ct c),
                       (c.storyPath, renderedContent render st c)]) := by
  by_cases h :
      (planPhase matcher cfg.excludes existsFs isForce baseDir cfg.components).2.length = 0
  · left
    simp [execute, h, writesOf_append, writesOf_map_log, writesOf_log]
  · cases answer with
    | false =>
        left
        simp [execute, h, writesOf_append, writesOf_map_log, writesOf_log,
          writesOf_cons_prompt, writesOf_cons_log, writesOf_nil]
    | true =>
        right
        by_cases hb : existsFs baseDir = true
        · simp [execute, h, hb, writesOf_append, writesOf_map_log, writesOf_log,
            writesOf_cons_prompt, writesOf_cons_mkdir, writesOf_cons_log,
            writesOf_materialize, writesOf_nil]
        · simp only [Bool.not_eq_true] at hb
          simp [execute, h, hb, writesOf_append, writesOf_map_log, writesOf_log,
            writesOf_cons_prompt, writesOf_cons_mkdir, writesOf_cons_log,
            writesOf_materialize, writesOf_nil]

/-- C10: every file content written by any run is the rendered template
output of that file's target, trimmed, with exactly one trailing newline
appended. -/
theorem c10_written_content_trimmed_one_newline
    (matcher : String → String → Bool) (render : String → Component → String)
    (ct st : String) (cfg : Config) (existsFs : String → Bool) (isForce : Bool)
    (baseDir : String) (answer : Bool) :
    ∀ pc ∈ writesOf (execute matcher render ct st cfg existsFs isForce baseDir answer),
      (∃ c : Component,
        (pc.1 = c.componentPath ∧ pc.2 = jsTrim (render ct c) ++ "\n")
        ∨ (pc.1 = c.storyPath ∧ pc.2 = jsTrim (render st c) ++ "\n"))
      ∧ trailingNewlineLen pc.2 = 1 := by
  intro pc hpc
  rcases writesOf_execute_cases matcher render ct st cfg existsFs isForce baseDir answer
    with hw | hw
  · rw [hw] at hpc
    cases hpc
  · rw [hw] at hpc
    obtain ⟨c, hc, hmem⟩ := List.mem_flatMap.mp hpc
    simp only [List.mem_cons, List.mem_singleton, List.not_mem_nil, or_false] at hmem
    rcases hmem with heq | heq
    · subst heq
      exact ⟨⟨c, Or.inl ⟨rfl, rfl⟩⟩, trailingNewlineLen_of_trimmed (render ct c)⟩
    · subst heq
      exact ⟨⟨c, Or.inr ⟨rfl, rfl⟩⟩, trailingNewlineLen_of_trimmed (render st c)⟩

/-- Witness for C10: in a concrete run whose component template renders to
text with surrounding whitespace, the written component file content is the
trimmed text plus exactly one newline. -/
theorem c10_written_content_trimmed_one_newline_witness :
    (("src/components/atoms/Input//Input.tsx", "CT\n")
        ∈ writesOf (execute (fun _ _ => false) (fun t _ => t) "  CT \n\n" "ST"
            ⟨[⟨"src/components", "atoms", "Input", []⟩], none⟩
            (fun _ => false) false "src/components" true))
    ∧ ((∃ c : Component,
          (("src/components/atoms/Input//Input.tsx", "CT\n").1 = c.componentPath
            ∧ (("src/components/atoms/Input//Input.tsx", "CT\n")).2
                = jsTrim ((fun (t : String) (_ : Component) => t) "  CT \n\n" c) ++ "\n")
          ∨ (("src/components/atoms/Input//Input.tsx", "CT\n").1 = c.storyPath
            ∧ (("src/components/atoms/Input//Input.tsx", "CT\n")).2
                = jsTrim ((fun (t : String) (_ : Component) => t) "ST" c) ++ "\n"))
        ∧ trailingNewlineLen (("src/components/atoms/Input//Input.tsx", "CT\n")).2 = 1) :=
  ⟨by decide,
   c10_written_content_trimmed_one_newline (fun _ _ => false) (fun t _ => t)
     "  CT \n\n" "ST" ⟨[⟨"src/components", "atoms", "Input", []⟩], none⟩
     (fun _ => false) false "src/components" true
     ("src/components/atoms/Input//Input.tsx", "CT\n") (by decide)⟩

/-- C1 (code bug, concrete evaluation): with exclusion pattern
`**/Input.stories.tsx` and an empty filesystem, the story path's
disposition is EXCLUDED — yet the run still writes that very file, because
its target qualified through the component path and the materializer writes
both files of an enqueued target. -/
theorem c1_excluded_path_still_written :
    (planStep
        (fun rel pat => pat == "**/Input.stories.tsx"
          && rel == "atoms/Input/Input.stories.tsx")
        (some ["**/Input.stories.tsx"]) (fun _ => false) false "src/components"
        (Component.storyPath ⟨"src/components", "atoms", "Input", []⟩)).disp
      = Disposition.excluded
    ∧ "src/components/atoms/Input/Input.stories.tsx"
        ∈ (writesOf (execute
            (fun rel pat => pat == "**/Input.stories.tsx"
              && rel == "atoms/Input/Input.stories.tsx")
            (fun t _ => t) "CT" "ST"
            ⟨[⟨"src/components", "atoms", "Input", []⟩], some ["**/Input.stories.tsx"]⟩
            (fun _ => false) false "src/components" true)).map
          (fun pc => posixNormalize pc.1) := by
  constructor
  · decide
  · decide

/-- C3 (code bug, concrete evaluation): with `Button.tsx` pre-existing and
force off, its disposition is SKIP — yet after the confirmed run the file's
content is the freshly rendered component output, not the old content,
because the target qualified through its story path and the materializer
rewrote both files. -/
theorem c3_skipped_file_rewritten :
    (planStep (fun _ _ => false) none
        (fun p => p == "src/components/atoms/Button/Button.tsx") false "src/components"
        (Component.componentPath ⟨"src/components", "atoms", "Button", []⟩)).disp
      = Disposition.skip
    ∧ finalContent
        (fun p => if p == "src/components/atoms/Button/Button.tsx"
          then some "old content" else none)
        (execute (fun _ _ => false) (fun t _ => t) "COMPONENT" "STORY"
          ⟨[⟨"src/components", "atoms", "Button", []⟩], none⟩
          (fun p => p == "src/components/atoms/Button/Button.tsx") false
          "src/components" true)
        "src/components/atoms/Button/Button.tsx" = some "COMPONENT\n"
    ∧ ("COMPONENT\n" : String) ≠ "old content" := by
  refine ⟨by decide, by decide, by decide⟩

end AtomicGen
